import Mathlib

/-!
Verification of the two algorithmic cores of the PyNight library
(`pynight/common_torch.py`): the structural introspector
(`torch_shape_get` / `h_shape_get` / `torch_memory_tensor`) and the masked
sequence compactor (`drop_tokens`).

The Python functions are shallowly embedded below.  Duck-typed leaves are
modelled by a record of optional capabilities, torch tensors by flat
row-major buffers together with a shape, and Python exceptions
(AssertionError, the RuntimeErrors of `reshape`/`cat`, IndexError) by an
explicit error type.
-/

namespace PyNight

/-! ## Structural introspector: data model -/

/-- A duck-typed Python leaf value as probed by `h_shape_get`: each field
records whether the corresponding attribute (`dtype`, `shape`,
`element_size`, `nelement`) is exposed, and `typeTag` stands for `type(x)`.
The leaf identity itself is the whole record. -/
structure PyLeaf where
  dtype : Option String
  shape : Option (List Nat)
  element_size : Option Nat
  nelement : Option Nat
  typeTag : String
deriving DecidableEq

/-- One component of the tuple `res` built by `h_shape_get`: a dtype, a
shape, a `type(x)` tag, or the formatted megabyte string (modelled by the
exact rational value that the format `f"\x7bsize:.2f\x7dMB"` displays). -/
inductive ResItem where
  | dty : String → ResItem
  | shp : List Nat → ResItem
  | typeTag : String → ResItem
  | sizeMB : ℚ → ResItem
deriving DecidableEq

/-- The value `h_shape_get` returns for one leaf: a tuple of items, the bare
`type(x)` (fallback with `type_only_p`), or the leaf itself unchanged
(fallback without `type_only_p`). -/
inductive ShapeRes where
  | tuple : List ResItem → ShapeRes
  | typeOnly : String → ShapeRes
  | raw : PyLeaf → ShapeRes
deriving DecidableEq

/-- Source `torch_memory_tensor(tensor, s)`: `tensor.element_size() *
tensor.nelement() / 1024**s`, here applied to the two capability values. -/
def torch_memory_tensor (element_size nelement : Nat) (s : Nat := 3) : ℚ :=
  ((element_size : ℚ) * (nelement : ℚ)) / ((1024 : ℚ) ^ s)

/-- Source `h_shape_get` (the per-leaf worker closed over `size_p`,
`type_only_p` and the mutable `total_size`).  Returns the descriptor
together with the amount added to the enclosing `total_size` accumulator. -/
def h_shape_get (size_p type_only_p : Bool) (x : PyLeaf) : ShapeRes × ℚ :=
  let res : List ResItem :=
    match x.dtype with
    | some d =>
        [ResItem.dty d] ++ (match x.shape with
          | some s => [ResItem.shp s]
          | none => [])
    | none =>
        match x.shape with
        | some s => [ResItem.typeTag x.typeTag, ResItem.shp s]
        | none => []
  let resDelta : List ResItem × ℚ :=
    if size_p then
      match x.element_size, x.nelement with
      | some es, some ne =>
          let size := torch_memory_tensor es ne 2
          (res ++ [ResItem.sizeMB size], size)
      | _, _ => (res, 0)
    else (res, 0)
  if resDelta.1.length = 0 then
    (if type_only_p then ShapeRes.typeOnly x.typeTag else ShapeRes.raw x,
     resDelta.2)
  else (ShapeRes.tuple resDelta.1, resDelta.2)

/-- A Python pytree as traversed by `jax.tree_map`: leaves, lists, and
string-keyed dicts (insertion order preserved). -/
inductive PyTree (α : Type) where
  | leaf : α → PyTree α
  | listNode : List (PyTree α) → PyTree α
  | dictNode : List (String × PyTree α) → PyTree α

/-- Structure-preserving map over a pytree (`jax.tree_map`). -/
def PyTree.map (f : α → β) : PyTree α → PyTree β
  | .leaf x => .leaf (f x)
  | .listNode xs => .listNode (xs.attach.map fun a => PyTree.map f a.1)
  | .dictNode xs => .dictNode (xs.attach.map fun a => (a.1.1, PyTree.map f a.1.2))
decreasing_by
  · have := List.sizeOf_lt_of_mem a.2
    simp only [PyTree.listNode.sizeOf_spec]
    omega
  · have h1 := List.sizeOf_lt_of_mem a.2
    have h2 : sizeOf a.1.2 < sizeOf a.1 := by
      obtain ⟨k, t⟩ := a.1
      simp
    simp only [PyTree.dictNode.sizeOf_spec]
    omega

/-- The leaves of a pytree, in traversal order. -/
def PyTree.leaves : PyTree α → List α
  | .leaf x => [x]
  | .listNode xs => (xs.attach.map fun a => PyTree.leaves a.1).flatten
  | .dictNode xs => (xs.attach.map fun a => PyTree.leaves a.1.2).flatten
decreasing_by
  · have := List.sizeOf_lt_of_mem a.2
    simp only [PyTree.listNode.sizeOf_spec]
    omega
  · have h1 := List.sizeOf_lt_of_mem a.2
    have h2 : sizeOf a.1.2 < sizeOf a.1 := by
      obtain ⟨k, t⟩ := a.1
      simp
    simp only [PyTree.dictNode.sizeOf_spec]
    omega

/-- Result of `torch_shape_get`: with `size_p` a dict
`dict(total_size_mb=…, tree=…)`, otherwise the mapped tree alone. -/
inductive ShapeGetResult where
  | sized : ℚ → PyTree ShapeRes → ShapeGetResult
  | plain : PyTree ShapeRes → ShapeGetResult

/-- Source `torch_shape_get`: maps `h_shape_get` over the pytree; the
`total_size` accumulator collects, in traversal order, the per-leaf
increments. -/
def torch_shape_get (size_p type_only_p : Bool) (input : PyTree PyLeaf) :
    ShapeGetResult :=
  let res := input.map fun x => (h_shape_get size_p type_only_p x).1
  let total_size :=
    ((input.leaves).map fun x => (h_shape_get size_p type_only_p x).2).sum
  if size_p then ShapeGetResult.sized total_size res
  else ShapeGetResult.plain res

/-- The size, in megabytes, of the leaves that expose both size
capabilities — the spec-side total: sum over such leaves of
`element_size_bytes * element_count / 1024 ^ 2`. -/
def specTotal (t : PyTree PyLeaf) : ℚ :=
  ((t.leaves).filterMap fun x =>
    match x.element_size, x.nelement with
    | some es, some ne => some (((es : ℚ) * (ne : ℚ)) / ((1024 : ℚ) ^ 2))
    | _, _ => none).sum

/-- The optional size annotation appended to a leaf descriptor under
`size_p` (dispatch rule 3 of the spec). -/
def sizeSuffix (size_p : Bool) (x : PyLeaf) : List ResItem :=
  if size_p then
    match x.element_size, x.nelement with
    | some es, some ne => [ResItem.sizeMB (torch_memory_tensor es ne 2)]
    | _, _ => []
  else []

/-! ## Masked sequence compactor: data model

A `torch.Tensor` is a shape together with its elements flattened in
row-major (C) order.  The mask is a boolean tensor; `nonzero` selects its
`true` entries (the source example uses an int mask, whose nonzero entries
play the same role). -/

/-- A torch tensor: shape and row-major flat data.  Well-formed when
`data.length = shape.prod`. -/
structure Tensor (α : Type) where
  shape : List Nat
  data : List α
deriving DecidableEq

/-- Partition `l` into `k` consecutive chunks of `n` elements each
(row-major blocks of a tensor). -/
def chunkExact (k n : Nat) (l : List α) : List (List α) :=
  match k with
  | 0 => []
  | kk + 1 => l.take n :: chunkExact kk n (l.drop n)

/-- Python `t[:, :p]` on a tensor of rank at least 2: keep the first
`min p s1` positions of axis 1 in every axis-0 block. -/
def sliceTake (p : Nat) (t : Tensor α) : Tensor α :=
  match t.shape with
  | s0 :: s1 :: rest =>
      let inner := rest.prod
      ⟨s0 :: min p s1 :: rest,
        ((chunkExact s0 (s1 * inner) t.data).map
          fun b => b.take (min p s1 * inner)).flatten⟩
  | _ => t

/-- Python `t[:, p:]` on a tensor of rank at least 2: drop the first `p`
positions of axis 1 in every axis-0 block. -/
def sliceDrop (p : Nat) (t : Tensor α) : Tensor α :=
  match t.shape with
  | s0 :: s1 :: rest =>
      let inner := rest.prod
      ⟨s0 :: (s1 - p) :: rest,
        ((chunkExact s0 (s1 * inner) t.data).map
          fun b => b.drop (p * inner)).flatten⟩
  | _ => t

/-- Python `t[mask.nonzero(as_tuple=True)]` in the situation the source
reaches it (`mask.shape == t.shape[:-1]`): the last-axis groups of `t`
whose mask entry is `true`, in row-major order, flattened. -/
def selectByMask (t : Tensor α) (mask : Tensor Bool) : List α :=
  let inner := t.shape.getLastD 1
  let groups := chunkExact t.shape.dropLast.prod inner t.data
  (((mask.data.zip groups).filter fun p => p.1).map fun p => p.2).flatten

/-- Python `torch.cat((t1, t2), dim=1)`: requires equal shapes outside
axis 1; concatenates the axis-1 blocks of each axis-0 block. -/
def catDim1 (t1 t2 : Tensor α) : Option (Tensor α) :=
  match t1.shape, t2.shape with
  | s0 :: a :: rest, s0' :: b :: rest' =>
      if s0 = s0' ∧ rest = rest' then
        let inner := rest.prod
        some ⟨s0 :: (a + b) :: rest,
          (List.zipWith (fun x y => x ++ y)
            (chunkExact s0 (a * inner) t1.data)
            (chunkExact s0 (b * inner) t2.data)).flatten⟩
      else none
  | _, _ => none

/-- The ways `drop_tokens` can raise: Python IndexError from slicing a
tensor of rank below 2, the `assert tokens.shape[:-1] == mask.shape`
(AssertionError, the spec's ShapeMismatch), the RuntimeError of
`reshape((B, -1, *rest))`, and the RuntimeError of `torch.cat` on
incompatible shapes (unreachable from `drop_tokens`). -/
inductive DropErr where
  | indexError
  | assertError
  | reshapeError
  | catError
deriving DecidableEq

/-- The part of `drop_tokens` after the optional split into
`prefix_tokens` and the remaining `tokens`: the assert, the masked
selection, the reshape `(tokens_shape[0], -1, *tokens_shape[2:])` (with
torch's rule that `-1` is ambiguous when the known sizes multiply to 0 and
must otherwise divide the element count), and the final concatenation. -/
def dropTokensCore (prefix_tokens : Option (Tensor α)) (tokens : Tensor α)
    (mask : Tensor Bool) : Except DropErr (Tensor α) :=
  if tokens.shape.dropLast ≠ mask.shape then .error .assertError
  else
    let tokens_shape := tokens.shape
    let selected := selectByMask tokens mask
    let d0 := tokens_shape.headD 0
    let rest := tokens_shape.drop 2
    let known := d0 * rest.prod
    if known = 0 then .error .reshapeError
    else if selected.length % known ≠ 0 then .error .reshapeError
    else
      let body : Tensor α := ⟨d0 :: (selected.length / known) :: rest, selected⟩
      match prefix_tokens with
      | none => .ok body
      | some pre =>
          match catDim1 pre body with
          | some out => .ok out
          | none => .error .catError

/-- Source `drop_tokens(tokens, mask, num_prefix_tokens=1, ordered=True)`.
`num_prefix_tokens` is taken as a natural number (the claims only exercise
non-negative prefix lengths; Python's negative-index slicing is out of
scope).  The `ordered` flag is received exactly as in the source, which
never reads it. -/
def drop_tokens (tokens0 : Tensor α) (mask : Tensor Bool)
    (num_prefix_tokens : Nat := 1) (ordered : Bool := true) :
    Except DropErr (Tensor α) :=
  if num_prefix_tokens ≠ 0 then
    if tokens0.shape.length < 2 then .error .indexError
    else
      dropTokensCore (some (sliceTake num_prefix_tokens tokens0))
        (sliceDrop num_prefix_tokens tokens0) mask
  else dropTokensCore none tokens0 mask

/-! ## Nested-list views of rank-3 tensors and rank-2 masks -/

/-- Row-major flat data of a batch of rows of feature groups. -/
def rowsData (rows : List (List (List α))) : List α :=
  (rows.map List.flatten).flatten

/-- The rank-3 tensor `[rows.length, L, h]` whose rows are `rows` (each row
a list of `L` feature groups of `h` elements). -/
def tensor3 (rows : List (List (List α))) (L h : Nat) : Tensor α :=
  ⟨[rows.length, L, h], rowsData rows⟩

/-- The rank-2 boolean tensor `[mrows.length, L]` whose rows are `mrows`. -/
def tensor2 (mrows : List (List Bool)) (L : Nat) : Tensor Bool :=
  ⟨[mrows.length, L], mrows.flatten⟩

/-- `rows` is a well-formed `B × L × h` nested list. -/
abbrev Uniform3 (rows : List (List (List α))) (L h : Nat) : Prop :=
  ∀ r ∈ rows, r.length = L ∧ ∀ g ∈ r, g.length = h

/-- Selection of `xs` by the truthy entries of `m`, in ascending position
order — `xs[nonzero(m)]` for one row. -/
def maskFilter (m : List Bool) (xs : List β) : List β :=
  ((m.zip xs).filter fun p => p.1).map fun p => p.2

/-- Nested-list view of a rank-3 tensor: its axis-0 rows, each a list of
axis-1 feature groups. -/
def tensorRows (t : Tensor α) : List (List (List α)) :=
  match t.shape with
  | [b, k, hh] => (chunkExact b (k * hh) t.data).map (chunkExact k hh)
  | _ => []

/-- The non-prefix body of `tokens` as `drop_tokens` computes it:
`tokens[:, num_prefix_tokens:]` when the prefix is split off, the whole
tensor when `num_prefix_tokens = 0`. -/
def bodyOf (tokens : Tensor α) (num_prefix_tokens : Nat) : Tensor α :=
  if num_prefix_tokens ≠ 0 then sliceDrop num_prefix_tokens tokens else tokens

/-! ## List bookkeeping lemmas -/

theorem length_flatten_uniform {r : List (List α)} {h : Nat}
    (hr : ∀ g ∈ r, g.length = h) : r.flatten.length = r.length * h := by
  induction r with
  | nil => simp
  | cons g gs ih =>
      have hg : g.length = h := hr g (by simp)
      have ih' := ih fun x hx => hr x (by simp [hx])
      simp [List.length_append, hg, ih', Nat.succ_mul, Nat.add_comm]

theorem take_flatten_uniform {r : List (List α)} {h : Nat} (p : Nat)
    (hr : ∀ g ∈ r, g.length = h) :
    r.flatten.take (p * h) = (r.take p).flatten := by
  induction r generalizing p with
  | nil => simp
  | cons g gs ih =>
      cases p with
      | zero => simp
      | succ q =>
          have hg : g.length = h := hr g (by simp)
          have ih' := ih q fun x hx => hr x (by simp [hx])
          have e1 : List.take (q.succ * h) g = g :=
            List.take_of_length_le (by rw [hg, Nat.succ_mul]; omega)
          have e2 : q.succ * h - g.length = q * h := by
            rw [hg, Nat.succ_mul]; omega
          rw [List.flatten_cons, List.take_append_eq_append_take, e1, e2, ih',
            List.take_succ_cons, List.flatten_cons]

theorem drop_flatten_uniform {r : List (List α)} {h : Nat} (p : Nat)
    (hr : ∀ g ∈ r, g.length = h) :
    r.flatten.drop (p * h) = (r.drop p).flatten := by
  induction r generalizing p with
  | nil => simp
  | cons g gs ih =>
      cases p with
      | zero => simp
      | succ q =>
          have hg : g.length = h := hr g (by simp)
          have ih' := ih q fun x hx => hr x (by simp [hx])
          have e1 : List.drop (q.succ * h) g = [] :=
            List.drop_eq_nil_of_le (by rw [hg, Nat.succ_mul]; omega)
          have e2 : q.succ * h - g.length = q * h := by
            rw [hg, Nat.succ_mul]; omega
          rw [List.flatten_cons, List.drop_append_eq_append_drop, e1, e2, ih',
            List.drop_succ_cons, List.nil_append]

theorem chunkExact_flatten {ls : List (List α)} {n : Nat}
    (hl : ∀ x ∈ ls, x.length = n) :
    chunkExact ls.length n ls.flatten = ls := by
  induction ls with
  | nil => simp [chunkExact]
  | cons a rest ih =>
      have ha : a.length = n := hl a (by simp)
      have ih' := ih fun x hx => hl x (by simp [hx])
      simp only [List.length_cons, List.flatten_cons, chunkExact]
      rw [List.take_left' ha, List.drop_left' ha, ih']

theorem flatten_chunkExact {l : List α} {k n : Nat} (hl : l.length = k * n) :
    (chunkExact k n l).flatten = l := by
  induction k generalizing l with
  | zero =>
      simp only [Nat.zero_mul] at hl
      simp [chunkExact, List.eq_nil_of_length_eq_zero hl]
  | succ q ih =>
      simp only [chunkExact, List.flatten_cons]
      have hlen : (l.drop n).length = q * n := by
        simp [List.length_drop, hl, Nat.succ_mul]
      rw [ih hlen, List.take_append_drop]

theorem chunkExact_append {l1 l2 : List α} {k1 n : Nat} (k2 : Nat)
    (hl : l1.length = k1 * n) :
    chunkExact (k1 + k2) n (l1 ++ l2) =
      chunkExact k1 n l1 ++ chunkExact k2 n l2 := by
  induction k1 generalizing l1 with
  | zero =>
      simp only [Nat.zero_mul] at hl
      simp [chunkExact, List.eq_nil_of_length_eq_zero hl]
  | succ q ih =>
      have hn : n ≤ l1.length := by
        rw [hl, Nat.succ_mul]; omega
      have htake : (l1 ++ l2).take n = l1.take n := by
        rw [List.take_append_eq_append_take]
        have : n - l1.length = 0 := by omega
        simp [this]
      have hdrop : (l1 ++ l2).drop n = l1.drop n ++ l2 := by
        rw [List.drop_append_eq_append_drop]
        have : n - l1.length = 0 := by omega
        simp [this]
      have hlen : (l1.drop n).length = q * n := by
        simp [List.length_drop, hl, Nat.succ_mul]
      simp only [Nat.succ_add, chunkExact, htake, hdrop]
      rw [ih hlen, List.cons_append]

theorem maskFilter_cons {m : List Bool} {xs : List β} (b : Bool) (x : β) :
    maskFilter (b :: m) (x :: xs) =
      (if b then [x] else []) ++ maskFilter m xs := by
  cases b <;> simp [maskFilter, List.filter_cons]

theorem maskFilter_append {m1 m2 : List Bool} {x1 x2 : List β}
    (hlen : m1.length = x1.length) :
    maskFilter (m1 ++ m2) (x1 ++ x2) = maskFilter m1 x1 ++ maskFilter m2 x2 := by
  induction m1 generalizing x1 with
  | nil =>
      have : x1 = [] := by
        cases x1 with
        | nil => rfl
        | cons a as => simp at hlen
      simp [this, maskFilter]
  | cons b bs ih =>
      cases x1 with
      | nil => simp at hlen
      | cons a as =>
          have hlen' : bs.length = as.length := by simpa using hlen
          simp only [List.cons_append, maskFilter_cons, ih hlen',
            List.append_assoc]

theorem maskFilter_length {m : List Bool} {xs : List β}
    (hlen : m.length = xs.length) :
    (maskFilter m xs).length = m.countP (fun b => b) := by
  induction m generalizing xs with
  | nil => simp [maskFilter]
  | cons b bs ih =>
      cases xs with
      | nil => simp at hlen
      | cons a as =>
          have hlen' : bs.length = as.length := by simpa using hlen
          rw [maskFilter_cons, List.length_append, ih hlen', List.countP_cons]
          cases b <;> simp [Nat.add_comm]

theorem maskFilter_all_true {m : List Bool} {xs : List β}
    (hm : ∀ b ∈ m, b = true) (hlen : m.length = xs.length) :
    maskFilter m xs = xs := by
  induction m generalizing xs with
  | nil =>
      cases xs with
      | nil => rfl
      | cons a as => simp at hlen
  | cons b bs ih =>
      cases xs with
      | nil => simp at hlen
      | cons a as =>
          have hb : b = true := hm b (by simp)
          have hlen' : bs.length = as.length := by simpa using hlen
          subst hb
          rw [maskFilter_cons, ih (fun x hx => hm x (by simp [hx])) hlen']
          simp

theorem maskFilter_flatten {mrows : List (List Bool)} {rows : List (List β)}
    (hB : mrows.length = rows.length)
    (hlen : List.Forall₂ (fun (m : List Bool) (r : List β) =>
      m.length = r.length) mrows rows) :
    maskFilter mrows.flatten rows.flatten =
      (List.zipWith maskFilter mrows rows).flatten := by
  induction hlen with
  | nil => simp [maskFilter]
  | cons h _ ih =>
      simp only [List.flatten_cons, List.zipWith_cons_cons]
      rw [maskFilter_append h, ih (by simpa using hB)]

theorem take_min_length (r : List α) (p : Nat) :
    r.take (min p r.length) = r.take p := by
  rcases Nat.le_total p r.length with h | h
  · rw [Nat.min_eq_left h]
  · rw [Nat.min_eq_right h, List.take_length, List.take_of_length_le h]

theorem flatten_map_flatten (l : List (List (List α))) :
    (l.map List.flatten).flatten = l.flatten.flatten := by
  induction l with
  | nil => simp
  | cons a as ih => simp [ih]

/-! ## Symbolic execution of the compactor on rank-3 inputs -/

theorem uniform3_take {rows : List (List (List α))} {L h : Nat} (p : Nat)
    (hu : Uniform3 rows L h) :
    Uniform3 (rows.map (List.take p)) (min p L) h := by
  intro r hr
  obtain ⟨r0, hr0, rfl⟩ := List.mem_map.mp hr
  obtain ⟨hlen, hgr⟩ := hu r0 hr0
  refine ⟨by rw [List.length_take, hlen], ?_⟩
  intro g hg
  exact hgr g (List.mem_of_mem_take hg)

theorem uniform3_drop {rows : List (List (List α))} {L h : Nat} (p : Nat)
    (hu : Uniform3 rows L h) :
    Uniform3 (rows.map (List.drop p)) (L - p) h := by
  intro r hr
  obtain ⟨r0, hr0, rfl⟩ := List.mem_map.mp hr
  obtain ⟨hlen, hgr⟩ := hu r0 hr0
  refine ⟨by rw [List.length_drop, hlen], ?_⟩
  intro g hg
  exact hgr g (List.mem_of_mem_drop hg)

theorem flatten_length_of_uniform {rows : List (List (List α))} {L h : Nat}
    (hu : Uniform3 rows L h) :
    ∀ x ∈ rows.map List.flatten, x.length = L * h := by
  intro x hx
  obtain ⟨r0, hr0, rfl⟩ := List.mem_map.mp hx
  obtain ⟨hlen, hgr⟩ := hu r0 hr0
  rw [length_flatten_uniform hgr, hlen]

theorem chunkExact_rowsData {rows : List (List (List α))} {L h : Nat}
    (hu : Uniform3 rows L h) :
    chunkExact rows.length (L * h) (rowsData rows) = rows.map List.flatten := by
  have := chunkExact_flatten (flatten_length_of_uniform hu)
  rwa [List.length_map] at this

theorem chunkExact_rowsData_fine {rows : List (List (List α))} {L h : Nat}
    (hu : Uniform3 rows L h) :
    chunkExact (rows.length * L) h (rowsData rows) = rows.flatten := by
  induction rows with
  | nil => simp [rowsData, chunkExact]
  | cons r rs ih =>
      obtain ⟨hlen, hgr⟩ := hu r (by simp)
      have hu' : Uniform3 rs L h := fun x hx => hu x (by simp [hx])
      have hdat : rowsData (r :: rs) = r.flatten ++ rowsData rs := by
        simp [rowsData]
      have hflat : r.flatten.length = L * h := by
        rw [length_flatten_uniform hgr, hlen]
      have hsucc : (r :: rs).length * L = L + rs.length * L := by
        simp [List.length_cons, Nat.succ_mul, Nat.add_comm]
      rw [hdat, hsucc, chunkExact_append (rs.length * L) hflat, ih hu',
        List.flatten_cons]
      congr 1
      have := chunkExact_flatten (n := h) hgr
      rwa [hlen] at this

theorem sliceTake_tensor3 {rows : List (List (List α))} {L h : Nat} (p : Nat)
    (hu : Uniform3 rows L h) :
    sliceTake p (tensor3 rows L h) =
      tensor3 (rows.map (List.take p)) (min p L) h := by
  simp only [sliceTake, tensor3, List.prod_cons, List.prod_nil, Nat.mul_one,
    Tensor.mk.injEq]
  refine ⟨by simp, ?_⟩
  rw [chunkExact_rowsData hu, rowsData, List.map_map, List.map_map]
  refine congrArg List.flatten (List.map_congr_left ?_)
  intro r hr
  obtain ⟨hlen, hgr⟩ := hu r hr
  simp only [Function.comp_apply]
  rw [take_flatten_uniform (min p L) hgr]
  congr 1
  rw [← hlen, take_min_length]

theorem sliceDrop_tensor3 {rows : List (List (List α))} {L h : Nat} (p : Nat)
    (hu : Uniform3 rows L h) :
    sliceDrop p (tensor3 rows L h) =
      tensor3 (rows.map (List.drop p)) (L - p) h := by
  simp only [sliceDrop, tensor3, List.prod_cons, List.prod_nil, Nat.mul_one,
    Tensor.mk.injEq]
  refine ⟨by simp, ?_⟩
  rw [chunkExact_rowsData hu, rowsData, List.map_map, List.map_map]
  refine congrArg List.flatten (List.map_congr_left ?_)
  intro r hr
  obtain ⟨hlen, hgr⟩ := hu r hr
  simp only [Function.comp_apply]
  rw [drop_flatten_uniform p hgr]

theorem selectByMask_tensor3 {rows : List (List (List α))}
    {mrows : List (List Bool)} {L h : Nat}
    (hu : Uniform3 rows L h) (hmB : mrows.length = rows.length)
    (hmL : ∀ m ∈ mrows, m.length = L) :
    selectByMask (tensor3 rows L h) (tensor2 mrows L) =
      ((List.zipWith maskFilter mrows rows).map List.flatten).flatten := by
  have hf : List.Forall₂
      (fun (m : List Bool) (r : List (List α)) => m.length = r.length)
      mrows rows := by
    rw [List.forall₂_iff_zip]
    refine ⟨hmB, ?_⟩
    intro m r hmr
    have hmem := List.of_mem_zip hmr
    rw [hmL m hmem.1, (hu r hmem.2).1]
  simp only [selectByMask, tensor3, tensor2]
  have hdl : ([rows.length, L, h] : List Nat).dropLast = [rows.length, L] := by
    simp
  have hgl : ([rows.length, L, h] : List Nat).getLastD 1 = h := by
    simp
  rw [hdl, hgl]
  have hprod : List.prod [rows.length, L] = rows.length * L := by simp
  rw [hprod, chunkExact_rowsData_fine hu]
  show (maskFilter mrows.flatten rows.flatten).flatten = _
  rw [maskFilter_flatten hmB hf, flatten_map_flatten]

theorem chunkExact_length (k n : Nat) (l : List α) :
    (chunkExact k n l).length = k := by
  induction k generalizing l with
  | zero => rfl
  | succ q ih => simp [chunkExact, ih]

theorem mem_of_mem_maskFilter {m : List Bool} {xs : List β} {b : β}
    (hb : b ∈ maskFilter m xs) : b ∈ xs := by
  simp only [maskFilter, List.mem_map, List.mem_filter] at hb
  obtain ⟨p, ⟨hpz, _⟩, rfl⟩ := hb
  exact (List.of_mem_zip hpz).2

theorem selected_length {rows : List (List (List α))}
    {mrows : List (List Bool)} {L h : Nat}
    (hu : Uniform3 rows L h) (hmB : mrows.length = rows.length)
    (hmL : ∀ m ∈ mrows, m.length = L) :
    (((List.zipWith maskFilter mrows rows).map List.flatten).flatten).length =
      ((mrows.map fun m => m.countP fun b => b).sum) * h := by
  induction mrows generalizing rows with
  | nil => simp
  | cons m ms ih =>
      cases rows with
      | nil => simp at hmB
      | cons r rs =>
          have hur : Uniform3 rs L h := fun x hx => hu x (by simp [hx])
          have hmB' : ms.length = rs.length := by simpa using hmB
          have hmL' : ∀ x ∈ ms, x.length = L := fun x hx => hmL x (by simp [hx])
          have hgr : ∀ g ∈ r, g.length = h := (hu r (by simp)).2
          have hflen : ((maskFilter m r).flatten).length =
              (m.countP fun b => b) * h := by
            rw [length_flatten_uniform
                (fun g hg => hgr g (mem_of_mem_maskFilter hg)),
              maskFilter_length (by rw [hmL m (by simp), (hu r (by simp)).1])]
          simp only [List.zipWith_cons_cons, List.map_cons, List.flatten_cons,
            List.length_append, List.sum_cons, hflen, ih hur hmB' hmL',
            Nat.add_mul]

theorem zipWith_snd {xs : List γ} {ys : List δ}
    (hlen : xs.length = ys.length) :
    List.zipWith (fun a b => b) xs ys = ys := by
  induction xs generalizing ys with
  | nil =>
      cases ys with
      | nil => rfl
      | cons y ys' => simp at hlen
  | cons x xs' ih =>
      cases ys with
      | nil => simp at hlen
      | cons y ys' =>
          simp only [List.zipWith_cons_cons]
          rw [ih (by simpa using hlen)]

theorem zipWith_append_nil_left {xs : List γ} {ys : List (List β)}
    (hlen : xs.length = ys.length) :
    List.zipWith (fun a b => a ++ b) (xs.map fun x => ([] : List β)) ys =
      ys := by
  induction xs generalizing ys with
  | nil =>
      cases ys with
      | nil => rfl
      | cons y ys' => simp at hlen
  | cons x xs' ih =>
      cases ys with
      | nil => simp at hlen
      | cons y ys' =>
          simp only [List.map_cons, List.zipWith_cons_cons, List.nil_append]
          rw [ih (by simpa using hlen)]

theorem dropTokensCore_tensor3 {bodyRows : List (List (List α))}
    {mrows : List (List Bool)} {Lb h : Nat} (prefix_tokens : Option (Tensor α))
    (hu : Uniform3 bodyRows Lb h) (hB : 0 < bodyRows.length) (hh : 0 < h)
    (hmB : mrows.length = bodyRows.length)
    (hmL : ∀ m ∈ mrows, m.length = Lb) :
    dropTokensCore prefix_tokens (tensor3 bodyRows Lb h) (tensor2 mrows Lb) =
      (if (mrows.map fun m => m.countP fun b => b).sum % bodyRows.length = 0
       then
         (match prefix_tokens with
          | none =>
              Except.ok ⟨[bodyRows.length,
                (mrows.map fun m => m.countP fun b => b).sum / bodyRows.length,
                h],
                ((List.zipWith maskFilter mrows bodyRows).map
                  List.flatten).flatten⟩
          | some pre =>
              match catDim1 pre ⟨[bodyRows.length,
                  (mrows.map fun m => m.countP fun b => b).sum /
                    bodyRows.length, h],
                  ((List.zipWith maskFilter mrows bodyRows).map
                    List.flatten).flatten⟩ with
              | some out => Except.ok out
              | none => Except.error DropErr.catError)
       else Except.error DropErr.reshapeError) := by
  have hassert : ¬((tensor3 bodyRows Lb h).shape.dropLast ≠
      (tensor2 mrows Lb).shape) := by
    simp [tensor3, tensor2, hmB]
  have hSel := selectByMask_tensor3 hu hmB hmL
  have hlenSel := selected_length hu hmB hmL
  unfold dropTokensCore
  rw [if_neg hassert]
  have hshape : (tensor3 bodyRows Lb h).shape = [bodyRows.length, Lb, h] := rfl
  simp only [hshape, List.headD_cons, List.drop_succ_cons, List.drop_zero,
    List.prod_cons, List.prod_nil, Nat.mul_one]
  have hknown : ¬(bodyRows.length * h = 0) := by
    exact Nat.mul_ne_zero (Nat.pos_iff_ne_zero.mp hB) (Nat.pos_iff_ne_zero.mp hh)
  rw [if_neg hknown, hSel, hlenSel, Nat.mul_mod_mul_right h _ bodyRows.length]
  by_cases hS : (mrows.map fun m => m.countP fun b => b).sum %
      bodyRows.length = 0
  · rw [if_neg (by simp [hS]), if_pos hS,
      Nat.mul_div_mul_right _ bodyRows.length hh]
  · rw [if_pos, if_neg hS]
    intro hcon
    rcases Nat.mul_eq_zero.mp hcon with hc | hc
    · exact hS hc
    · exact Nat.pos_iff_ne_zero.mp hh hc

theorem drop_tokens_run {rows : List (List (List α))}
    {mrows : List (List Bool)} {L h P : Nat} (ord : Bool)
    (hu : Uniform3 rows L h) (hB : 0 < rows.length) (hh : 0 < h)
    (hPL : P ≤ L) (hmB : mrows.length = rows.length)
    (hmL : ∀ m ∈ mrows, m.length = L - P) :
    drop_tokens (tensor3 rows L h) (tensor2 mrows (L - P)) P ord =
      (if (mrows.map fun m => m.countP fun b => b).sum % rows.length = 0 then
        Except.ok ⟨[rows.length,
            P + (mrows.map fun m => m.countP fun b => b).sum / rows.length, h],
          (List.zipWith (fun a b => a ++ b)
            (rows.map fun r => (r.take P).flatten)
            (chunkExact rows.length
              ((mrows.map fun m => m.countP fun b => b).sum / rows.length * h)
              (((List.zipWith maskFilter mrows (rows.map (List.drop P))).map
                List.flatten).flatten))).flatten⟩
       else Except.error DropErr.reshapeError) := by
  unfold drop_tokens
  by_cases hP : P = 0
  · subst hP
    simp only [Nat.sub_zero] at hmL ⊢
    rw [if_neg (by simp)]
    have hrid : rows.map (List.drop 0) = rows := by
      refine Eq.trans (List.map_congr_left fun r _ => ?_) (List.map_id rows)
      show List.drop 0 r = r
      exact List.drop_zero r
    rw [hrid, dropTokensCore_tensor3 none hu hB hh hmB hmL]
    by_cases hS : (mrows.map fun m => m.countP fun b => b).sum %
        rows.length = 0
    · rw [if_pos hS, if_pos hS]
      have hdvd := Nat.dvd_of_mod_eq_zero hS
      have hFlen : (((List.zipWith maskFilter mrows rows).map
          List.flatten).flatten).length = rows.length *
            (((mrows.map fun m => m.countP fun b => b).sum / rows.length) * h) := by
        rw [selected_length hu hmB hmL, ← Nat.mul_assoc,
          Nat.mul_div_cancel' hdvd]
      simp only [Except.ok.injEq, Tensor.mk.injEq, List.take_zero,
        List.flatten_nil, List.nil_append, Nat.zero_add]
      refine ⟨trivial, ?_⟩
      rw [zipWith_append_nil_left (by rw [chunkExact_length]),
        flatten_chunkExact hFlen]
    · rw [if_neg hS, if_neg hS]
  · rw [if_pos hP, if_neg (by simp [tensor3]),
      sliceTake_tensor3 P hu, sliceDrop_tensor3 P hu, Nat.min_eq_left hPL,
      dropTokensCore_tensor3 (some (tensor3 (rows.map (List.take P)) P h))
        (uniform3_drop P hu) (by simpa using hB) hh
        (by simpa using hmB) hmL]
    simp only [List.length_map]
    by_cases hS : (mrows.map fun m => m.countP fun b => b).sum %
        rows.length = 0
    · rw [if_pos hS, if_pos hS]
      have hupre : Uniform3 (rows.map (List.take P)) P h := by
        have := uniform3_take (L := L) (h := h) P hu
        rwa [Nat.min_eq_left hPL] at this
      have hchunk : chunkExact (rows.map (List.take P)).length (P * h)
          (rowsData (rows.map (List.take P))) =
            (rows.map (List.take P)).map List.flatten :=
        chunkExact_rowsData hupre
      simp only [catDim1, tensor3, List.length_map, List.prod_cons,
        List.prod_nil, Nat.mul_one]
      rw [if_pos (by simp)]
      simp only [Except.ok.injEq, Tensor.mk.injEq]
      refine ⟨trivial, ?_⟩
      rw [List.length_map] at hchunk
      rw [hchunk, List.map_map]
      rfl
    · rw [if_neg hS, if_neg hS]

theorem sum_map_countP_const {mrows : List (List Bool)} {k : Nat}
    (hmk : ∀ m ∈ mrows, m.countP (fun b => b) = k) :
    (mrows.map fun m => m.countP fun b => b).sum = mrows.length * k := by
  induction mrows with
  | nil => simp
  | cons m ms ih =>
      simp only [List.map_cons, List.sum_cons, List.length_cons,
        hmk m (by simp), ih fun x hx => hmk x (by simp [hx]), Nat.succ_mul]
      omega

theorem exists_of_mem_zipWith {f : γ → δ → ε} {xs : List γ} {ys : List δ}
    {z : ε} (hz : z ∈ List.zipWith f xs ys) :
    ∃ x ∈ xs, ∃ y ∈ ys, z = f x y := by
  induction xs generalizing ys with
  | nil => simp at hz
  | cons x xs' ih =>
      cases ys with
      | nil => simp at hz
      | cons y ys' =>
          simp only [List.zipWith_cons_cons, List.mem_cons] at hz
          rcases hz with hz | hz
          · exact ⟨x, by simp, y, by simp, hz⟩
          · obtain ⟨x', hx', y', hy', rfl⟩ := ih hz
            exact ⟨x', by simp [hx'], y', by simp [hy'], rfl⟩

theorem zip_prefix_body (P : Nat) (mrows : List (List Bool))
    (rows : List (List (List α))) :
    List.zipWith (fun a b => a ++ b) (rows.map fun r => (r.take P).flatten)
      ((List.zipWith maskFilter mrows (rows.map (List.drop P))).map
        List.flatten) =
    (List.zipWith (fun m r => r.take P ++ maskFilter m (r.drop P))
      mrows rows).map List.flatten := by
  induction mrows generalizing rows with
  | nil => cases rows <;> simp
  | cons m ms ih =>
      cases rows with
      | nil => simp
      | cons r rs =>
          simp only [List.map_cons, List.zipWith_cons_cons,
            List.flatten_append]
          rw [ih rs]

/-- The compactor on a well-formed rank-3 batch with equal per-row keep
counts `k`: it succeeds, and the output is row `i` given by the kept prefix
of row `i` followed by the mask-selected body positions of row `i`. -/
theorem drop_tokens_equalCounts {rows : List (List (List α))}
    {mrows : List (List Bool)} {L h P k : Nat} (ord : Bool)
    (hu : Uniform3 rows L h) (hB : 0 < rows.length) (hh : 0 < h)
    (hPL : P ≤ L) (hmB : mrows.length = rows.length)
    (hmL : ∀ m ∈ mrows, m.length = L - P)
    (hmk : ∀ m ∈ mrows, m.countP (fun b => b) = k) :
    drop_tokens (tensor3 rows L h) (tensor2 mrows (L - P)) P ord =
      Except.ok (tensor3
        (List.zipWith (fun m r => r.take P ++ maskFilter m (r.drop P))
          mrows rows) (P + k) h) := by
  have hsum : (mrows.map fun m => m.countP fun b => b).sum =
      rows.length * k := by
    rw [sum_map_countP_const hmk, hmB]
  have hmod : (mrows.map fun m => m.countP fun b => b).sum %
      rows.length = 0 := by
    rw [hsum]; exact Nat.mul_mod_right _ _
  have hdivk : (mrows.map fun m => m.countP fun b => b).sum /
      rows.length = k := by
    rw [hsum]; exact Nat.mul_div_cancel_left k hB
  have hselU : ∀ x ∈ (List.zipWith maskFilter mrows
      (rows.map (List.drop P))).map List.flatten, x.length = k * h := by
    intro x hx
    obtain ⟨y, hy, rfl⟩ := List.mem_map.mp hx
    obtain ⟨m, hm, br, hbr, rfl⟩ := exists_of_mem_zipWith hy
    obtain ⟨r, hr, rfl⟩ := List.mem_map.mp hbr
    have hgr : ∀ g ∈ r.drop P, g.length = h :=
      fun g hg => (hu r hr).2 g (List.mem_of_mem_drop hg)
    rw [length_flatten_uniform fun g hg => hgr g (mem_of_mem_maskFilter hg),
      maskFilter_length (by rw [hmL m hm, List.length_drop, (hu r hr).1]),
      hmk m hm]
  have hselLen : ((List.zipWith maskFilter mrows
      (rows.map (List.drop P))).map List.flatten).length = rows.length := by
    simp [List.length_zipWith, hmB, Nat.min_self]
  have hchunkSel : chunkExact rows.length (k * h)
      (((List.zipWith maskFilter mrows (rows.map (List.drop P))).map
        List.flatten).flatten) =
      (List.zipWith maskFilter mrows (rows.map (List.drop P))).map
        List.flatten := by
    have := chunkExact_flatten hselU
    rwa [hselLen] at this
  rw [drop_tokens_run ord hu hB hh hPL hmB hmL, if_pos hmod, hdivk, hchunkSel,
    zip_prefix_body P mrows rows]
  simp only [tensor3, rowsData, Except.ok.injEq, Tensor.mk.injEq,
    List.length_zipWith, hmB, Nat.min_self]

theorem h_shape_get_snd (size_p type_only_p : Bool) (x : PyLeaf) :
    (h_shape_get size_p type_only_p x).2 =
      (if size_p then
        match x.element_size, x.nelement with
        | some es, some ne => torch_memory_tensor es ne 2
        | _, _ => 0
       else 0) := by
  unfold h_shape_get
  cases size_p
  · simp [apply_ite]
  · cases x.element_size <;> cases x.nelement <;> simp [apply_ite]

theorem sum_snd_eq_specTotal (type_only_p : Bool) (ls : List PyLeaf) :
    (ls.map fun x => (h_shape_get true type_only_p x).2).sum =
      (ls.filterMap fun x =>
        match x.element_size, x.nelement with
        | some es, some ne =>
            some (((es : ℚ) * (ne : ℚ)) / ((1024 : ℚ) ^ 2))
        | _, _ => none).sum := by
  induction ls with
  | nil => simp
  | cons a as ih =>
      rw [List.map_cons, List.sum_cons, ih, List.filterMap_cons]
      cases hes : a.element_size with
      | none => simp [h_shape_get_snd, hes]
      | some es =>
          cases hne : a.nelement with
          | none => simp [h_shape_get_snd, hes, hne]
          | some ne => simp [h_shape_get_snd, hes, hne, torch_memory_tensor]

theorem tensorRows_tensor3 {rows : List (List (List α))} {K h : Nat}
    (hu : Uniform3 rows K h) : tensorRows (tensor3 rows K h) = rows := by
  simp only [tensorRows, tensor3]
  rw [chunkExact_rowsData hu, List.map_map]
  refine Eq.trans (List.map_congr_left ?_) (List.map_id rows)
  intro r hr
  obtain ⟨hlen, hgr⟩ := hu r hr
  show chunkExact K h r.flatten = r
  have := chunkExact_flatten hgr
  rwa [hlen] at this

theorem getD_zipWith {f : γ → δ → ε} {xs : List γ} {ys : List δ} {i : Nat}
    (d1 : γ) (d2 : δ) (d3 : ε) (hi : i < xs.length)
    (hlen : xs.length = ys.length) :
    (List.zipWith f xs ys).getD i d3 = f (xs.getD i d1) (ys.getD i d2) := by
  induction xs generalizing ys i with
  | nil => simp at hi
  | cons x xs' ih =>
      cases ys with
      | nil => simp at hlen
      | cons y ys' =>
          cases i with
          | zero => simp
          | succ j =>
              simp only [List.zipWith_cons_cons, List.getD_cons_succ]
              exact ih (by simpa using hi) (by simpa using hlen)

theorem countP_replicate_true (L : Nat) :
    (List.replicate L true).countP (fun b => b) = L := by
  induction L with
  | zero => rfl
  | succ n ih => simp [List.replicate_succ, List.countP_cons, ih]

theorem zipWith_replicate_left {c : γ} {xs : List δ} (f : γ → δ → ε) :
    List.zipWith f (List.replicate xs.length c) xs = xs.map (f c) := by
  induction xs with
  | nil => rfl
  | cons x xs' ih =>
      simp only [List.length_cons, List.replicate_succ,
        List.zipWith_cons_cons, List.map_cons, ih]

theorem dropTokensCore_no_assert {tokens : Tensor α} {mask : Tensor Bool}
    (prefix_tokens : Option (Tensor α))
    (hc : tokens.shape.dropLast = mask.shape) :
    dropTokensCore prefix_tokens tokens mask ≠
      Except.error DropErr.assertError := by
  intro hcon
  unfold dropTokensCore at hcon
  rw [if_neg (not_ne_iff.mpr hc)] at hcon
  simp only [] at hcon
  split at hcon
  · simp at hcon
  · split at hcon
    · simp at hcon
    · split at hcon
      · simp at hcon
      · split at hcon
        · simp at hcon
        · simp at hcon

theorem dropTokensCore_assert_iff (prefix_tokens : Option (Tensor α))
    (tokens : Tensor α) (mask : Tensor Bool) :
    dropTokensCore prefix_tokens tokens mask =
        Except.error DropErr.assertError ↔
      tokens.shape.dropLast ≠ mask.shape := by
  constructor
  · intro h1
    by_contra hc
    exact dropTokensCore_no_assert prefix_tokens hc h1
  · intro hc
    unfold dropTokensCore
    rw [if_pos hc]

/-! ## Claim theorems -/

/-- C5: `torch_shape_get` with `size_p` returns a result whose
`total_size_mb` equals the sum, over exactly the leaves exposing both size
capabilities, of `element_size * nelement / 1024 ^ 2` (the equality is
exact over ℚ, hence within any relative tolerance), together with the
mapped descriptor tree; without `size_p` it returns only the mapped
descriptor tree and no total. -/
theorem claim_C5_total_size (type_only_p : Bool) (t : PyTree PyLeaf) :
    torch_shape_get true type_only_p t =
      ShapeGetResult.sized (specTotal t)
        (t.map fun x => (h_shape_get true type_only_p x).1) ∧
    torch_shape_get false type_only_p t =
      ShapeGetResult.plain
        (t.map fun x => (h_shape_get false type_only_p x).1) := by
  constructor
  · unfold torch_shape_get specTotal
    rw [if_pos rfl, sum_snd_eq_specTotal type_only_p t.leaves]
  · unfold torch_shape_get
    rw [if_neg (by simp)]

/-- C6: leaf dispatch precedence of `h_shape_get`.  A leaf exposing both
`dtype` and `shape` yields the descriptor `(dtype, shape)`; a leaf
exposing only `shape` yields `(type(x), shape)` — in both cases followed
by the size annotation exactly when rule 3 applies (`size_p` set and both
size capabilities exposed). -/
theorem claim_C6_dispatch (size_p type_only_p : Bool) (x : PyLeaf)
    (d : String) (s : List Nat) :
    (x.dtype = some d → x.shape = some s →
      (h_shape_get size_p type_only_p x).1 =
        ShapeRes.tuple ([ResItem.dty d, ResItem.shp s] ++
          sizeSuffix size_p x)) ∧
    (x.dtype = none → x.shape = some s →
      (h_shape_get size_p type_only_p x).1 =
        ShapeRes.tuple ([ResItem.typeTag x.typeTag, ResItem.shp s] ++
          sizeSuffix size_p x)) := by
  constructor
  · intro hd hs
    unfold h_shape_get sizeSuffix
    rw [hd, hs]
    cases size_p
    · simp
    · cases hes : x.element_size <;> cases hne : x.nelement <;> simp
  · intro hd hs
    unfold h_shape_get sizeSuffix
    rw [hd, hs]
    cases size_p
    · simp
    · cases hes : x.element_size <;> cases hne : x.nelement <;> simp

/-- C7: a leaf exposing none of the capabilities never fails: its
descriptor is `type(x)` in type-only mode and the unchanged leaf
otherwise, it contributes nothing to the size total, and the call on such
a leaf succeeds with exactly that fallback (and a zero total when
`size_p`). -/
theorem claim_C7_fallback (size_p type_only_p : Bool) (x : PyLeaf)
    (hd : x.dtype = none) (hs : x.shape = none)
    (hes : x.element_size = none) (hne : x.nelement = none) :
    (h_shape_get size_p true x).1 = ShapeRes.typeOnly x.typeTag ∧
    (h_shape_get size_p false x).1 = ShapeRes.raw x ∧
    torch_shape_get size_p type_only_p (PyTree.leaf x) =
      (if size_p then
        ShapeGetResult.sized 0
          (PyTree.leaf (h_shape_get size_p type_only_p x).1)
       else
        ShapeGetResult.plain
          (PyTree.leaf (h_shape_get size_p type_only_p x).1)) := by
  refine ⟨?_, ?_, ?_⟩
  · unfold h_shape_get
    rw [hd, hs, hes]
    cases size_p <;> simp
  · unfold h_shape_get
    rw [hd, hs, hes]
    cases size_p <;> simp
  · unfold torch_shape_get
    have hl : (PyTree.leaf x).leaves = [x] := by
      simp [PyTree.leaves]
    have hm : (PyTree.leaf x).map
        (fun y => (h_shape_get size_p type_only_p y).1) =
        PyTree.leaf ((h_shape_get size_p type_only_p x).1) := by
      simp [PyTree.map]
    rw [hl, hm]
    have hz : (h_shape_get size_p type_only_p x).2 = 0 := by
      rw [h_shape_get_snd, hes]
      cases size_p <;> simp
    cases size_p <;> simp [hz]

/-- C10: a leaf exposing `dtype` but no `shape` (and with the size rule
not firing: `size_p` unset or no size capability exposed) yields the
one-element descriptor `(dtype,)` rather than any fallback. -/
theorem claim_C10_dtype_only (size_p type_only_p : Bool) (x : PyLeaf)
    (d : String) (hd : x.dtype = some d) (hs : x.shape = none)
    (hsz : size_p = false ∨
      (x.element_size = none ∧ x.nelement = none)) :
    (h_shape_get size_p type_only_p x).1 =
      ShapeRes.tuple [ResItem.dty d] := by
  unfold h_shape_get
  rw [hd, hs]
  rcases hsz with rfl | ⟨hes, hne⟩
  · simp
  · rw [hes]
    cases size_p <;> simp

/-- C9: the `ordered` flag is inert — the source never reads it, so the
two calls are literally the same computation on every input. -/
theorem claim_C9_ordered_inert (tokens0 : Tensor α) (mask : Tensor Bool)
    (num_prefix_tokens : Nat) :
    drop_tokens tokens0 mask num_prefix_tokens true =
      drop_tokens tokens0 mask num_prefix_tokens false := rfl

/-- C1 counterexample: three inputs on which the claim fails although the
mask rows all have equal keep counts.  With tokens of shape
`[1, 2, 1, 1]` (two feature dims) and matching mask `[1, 1]` the claim
promises shape `[1, 2, 1, 1]` but the call raises the shape assert; with
feature dim `h = 0` or batch `B = 0` the claim promises shapes
`[1, 2, 0]` and `[0, 1 + k, 1]` but the reshape raises (torch cannot
infer `-1` when the known sizes multiply to 0). -/
theorem claim_C1_counterexample :
    drop_tokens (⟨[1, 2, 1, 1], [10, 20]⟩ : Tensor Nat) ⟨[1, 1], [true]⟩
      1 true = Except.error DropErr.assertError ∧
    drop_tokens (⟨[1, 2, 0], []⟩ : Tensor Nat) ⟨[1, 1], [true]⟩
      1 true = Except.error DropErr.reshapeError ∧
    drop_tokens (⟨[0, 2, 1], []⟩ : Tensor Nat) ⟨[0, 1], []⟩
      1 true = Except.error DropErr.reshapeError := ⟨rfl, rfl, rfl⟩

/-- C1 amended: for tokens of shape `[B, L, h]` with exactly one feature
dim, `B > 0`, `h > 0`, `P ≤ L`, and a mask of shape `[B, L-P]` all of
whose rows have keep count `k`, the output exists and has shape exactly
`[B, P + k, h]`. -/
theorem claim_C1_amended {rows : List (List (List α))}
    {mrows : List (List Bool)} {L h P k : Nat} (ord : Bool)
    (hu : Uniform3 rows L h) (hB : 0 < rows.length) (hh : 0 < h)
    (hPL : P ≤ L) (hmB : mrows.length = rows.length)
    (hmL : ∀ m ∈ mrows, m.length = L - P)
    (hmk : ∀ m ∈ mrows, m.countP (fun b => b) = k) :
    ∃ out, drop_tokens (tensor3 rows L h) (tensor2 mrows (L - P)) P ord =
      Except.ok out ∧ out.shape = [rows.length, P + k, h] := by
  refine ⟨_, drop_tokens_equalCounts ord hu hB hh hPL hmB hmL hmk, ?_⟩
  simp [tensor3, List.length_zipWith, hmB, Nat.min_self]

/-- C2 counterexample: tokens of shape `[1, 2, 1, 1]` with
`num_prefix_tokens = 1` have a body whose leading shape `[1, 1]` equals
the mask shape, yet the call fails with the assert, because the source
checks `tokens.shape[:-1] == mask.shape` (all dims but the last), not the
leading `[B, L-P]`. -/
theorem claim_C2_counterexample :
    (bodyOf (⟨[1, 2, 1, 1], [10, 20]⟩ : Tensor Nat) 1).shape.take 2 =
      (⟨[1, 1], [true]⟩ : Tensor Bool).shape ∧
    drop_tokens (⟨[1, 2, 1, 1], [10, 20]⟩ : Tensor Nat) ⟨[1, 1], [true]⟩
      1 true = Except.error DropErr.assertError := ⟨rfl, rfl⟩

/-- C2 amended: given tokens of rank at least 2 (rank below 2 raises the
slicing IndexError first when a prefix is split off), the call fails with
the ShapeMismatch assert exactly when the body's shape with its last dim
removed (`body.shape[:-1]`) differs from `mask.shape`; no other input
produces that failure. -/
theorem claim_C2_amended (tokens0 : Tensor α) (mask : Tensor Bool)
    (num_prefix_tokens : Nat) (ordered : Bool)
    (hrank : num_prefix_tokens ≠ 0 → 2 ≤ tokens0.shape.length) :
    drop_tokens tokens0 mask num_prefix_tokens ordered =
        Except.error DropErr.assertError ↔
      (bodyOf tokens0 num_prefix_tokens).shape.dropLast ≠ mask.shape := by
  unfold drop_tokens bodyOf
  by_cases hP : num_prefix_tokens ≠ 0
  · rw [if_pos hP, if_pos hP, if_neg (by have := hrank hP; omega)]
    exact dropTokensCore_assert_iff _ _ _
  · rw [if_neg hP, if_neg hP]
    exact dropTokensCore_assert_iff _ _ _

/-- C3: on a valid equal-keep-count input, row `i` of the output beyond
the prefix equals the body positions of row `i` selected by the truthy
mask entries of row `i`, in ascending position order. -/
theorem claim_C3_row_content {rows : List (List (List α))}
    {mrows : List (List Bool)} {L h P k : Nat} (ord : Bool)
    (hu : Uniform3 rows L h) (hB : 0 < rows.length) (hh : 0 < h)
    (hPL : P ≤ L) (hmB : mrows.length = rows.length)
    (hmL : ∀ m ∈ mrows, m.length = L - P)
    (hmk : ∀ m ∈ mrows, m.countP (fun b => b) = k) :
    ∃ out, drop_tokens (tensor3 rows L h) (tensor2 mrows (L - P)) P ord =
      Except.ok out ∧
      ∀ i, i < rows.length →
        ((tensorRows out).getD i []).drop P =
          maskFilter (mrows.getD i []) ((rows.getD i []).drop P) := by
  refine ⟨_, drop_tokens_equalCounts ord hu hB hh hPL hmB hmL hmk, ?_⟩
  have huz : Uniform3 (List.zipWith
      (fun m r => r.take P ++ maskFilter m (r.drop P)) mrows rows)
      (P + k) h := by
    intro z hz
    obtain ⟨m, hm, r, hr, rfl⟩ := exists_of_mem_zipWith hz
    obtain ⟨hlen, hgr⟩ := hu r hr
    constructor
    · rw [List.length_append, List.length_take, hlen, Nat.min_eq_left hPL,
        maskFilter_length (by rw [hmL m hm, List.length_drop, hlen]),
        hmk m hm]
    · intro g hg
      rcases List.mem_append.mp hg with hg | hg
      · exact hgr g (List.mem_of_mem_take hg)
      · exact hgr g (List.mem_of_mem_drop (mem_of_mem_maskFilter hg))
  intro i hi
  rw [tensorRows_tensor3 huz,
    getD_zipWith [] [] [] (by rw [hmB]; exact hi) hmB]
  have hr : rows.getD i [] ∈ rows := by
    rw [List.getD_eq_getElem _ _ hi]
    exact List.getElem_mem _
  have hlenTake : ((rows.getD i []).take P).length = P := by
    rw [List.length_take, Nat.min_eq_left (by rw [(hu _ hr).1]; exact hPL)]
  rw [List.drop_left' hlenTake]

/-- C4 counterexample: the mask `[[1, 1], [0, 0]]` has differing per-row
keep counts (2 and 0), yet the call does not fail: the total keep count 2
is divisible by the batch size 2, the reshape silently regroups, and the
second output row receives token `3` from the first input row — a
structurally valid but semantically wrong result. -/
theorem claim_C4_counterexample :
    drop_tokens (⟨[2, 3, 1], [1, 2, 3, 4, 5, 6]⟩ : Tensor Nat)
      ⟨[2, 2], [true, true, false, false]⟩ 1 true =
      Except.ok ⟨[2, 2, 1], [1, 2, 4, 3]⟩ := rfl

/-- C4 amended: on a well-formed `[B, L, h]` input with `B > 0`, `h > 0`,
`P ≤ L` and mask `[B, L-P]`, the call fails (with the reshape
size-mismatch error) exactly when `B` does not divide the total keep
count `S`; when `B ∣ S` it silently returns a structurally valid result
of shape `[B, P + S/B, h]`, whether or not per-row counts agree. -/
theorem claim_C4_amended {rows : List (List (List α))}
    {mrows : List (List Bool)} {L h P : Nat} (ord : Bool)
    (hu : Uniform3 rows L h) (hB : 0 < rows.length) (hh : 0 < h)
    (hPL : P ≤ L) (hmB : mrows.length = rows.length)
    (hmL : ∀ m ∈ mrows, m.length = L - P) :
    (¬ rows.length ∣ (mrows.map fun m => m.countP fun b => b).sum →
      drop_tokens (tensor3 rows L h) (tensor2 mrows (L - P)) P ord =
        Except.error DropErr.reshapeError) ∧
    (rows.length ∣ (mrows.map fun m => m.countP fun b => b).sum →
      ∃ out, drop_tokens (tensor3 rows L h) (tensor2 mrows (L - P)) P ord =
        Except.ok out ∧ out.shape = [rows.length,
          P + (mrows.map fun m => m.countP fun b => b).sum / rows.length,
          h]) := by
  rw [drop_tokens_run ord hu hB hh hPL hmB hmL]
  constructor
  · intro hnd
    rw [if_neg fun hmod => hnd (Nat.dvd_of_mod_eq_zero hmod)]
  · intro hd
    rw [if_pos (Nat.mod_eq_zero_of_dvd hd)]
    exact ⟨_, rfl, rfl⟩

/-- C8 counterexample: with `num_prefix_tokens = 0` and an all-true mask
of matching shape, an empty batch (`B = 0`) or an empty feature dim
(`h = 0`) makes the reshape raise instead of returning the input. -/
theorem claim_C8_counterexample :
    drop_tokens (⟨[0, 1, 1], []⟩ : Tensor Nat) ⟨[0, 1], []⟩ 0 true =
      Except.error DropErr.reshapeError ∧
    drop_tokens (⟨[1, 1, 0], []⟩ : Tensor Nat) ⟨[1, 1], [true]⟩ 0 true =
      Except.error DropErr.reshapeError := ⟨rfl, rfl⟩

/-- C8 amended: for every well-formed `[B, L, h]` tokens buffer with
`B > 0` and `h > 0`, the call with `num_prefix_tokens = 0` and the
all-true mask of matching shape returns the input unchanged. -/
theorem claim_C8_amended {rows : List (List (List α))} {L h : Nat}
    (ord : Bool) (hu : Uniform3 rows L h) (hB : 0 < rows.length)
    (hh : 0 < h) :
    drop_tokens (tensor3 rows L h)
      (tensor2 (List.replicate rows.length (List.replicate L true)) L)
      0 ord = Except.ok (tensor3 rows L h) := by
  have heq : drop_tokens (tensor3 rows L h)
      (tensor2 (List.replicate rows.length (List.replicate L true)) (L - 0))
      0 ord = Except.ok (tensor3 (List.zipWith
        (fun m r => r.take 0 ++ maskFilter m (r.drop 0))
        (List.replicate rows.length (List.replicate L true)) rows)
        (0 + L) h) :=
    drop_tokens_equalCounts ord hu hB hh (Nat.zero_le L) (by simp)
      (fun m hm => by rw [List.eq_of_mem_replicate hm]; simp)
      (fun m hm => by
        rw [List.eq_of_mem_replicate hm]; exact countP_replicate_true L)
  simp only [Nat.sub_zero] at heq
  rw [heq]
  have hz : List.zipWith (fun m r => r.take 0 ++ maskFilter m (r.drop 0))
      (List.replicate rows.length (List.replicate L true)) rows = rows := by
    rw [zipWith_replicate_left]
    refine Eq.trans (List.map_congr_left ?_) (List.map_id rows)
    intro r hr
    show r.take 0 ++ maskFilter (List.replicate L true) (r.drop 0) = r
    rw [List.take_zero, List.nil_append, List.drop_zero,
      maskFilter_all_true (fun b hb => List.eq_of_mem_replicate hb)
        (by rw [List.length_replicate, (hu r hr).1])]
  rw [hz, Nat.zero_add]

/-! ## Witnesses -/

/-- Witness for C1 amended at a concrete input: `B = 1`, `L = 3`, `h = 1`,
`P = 1`, keep count `k = 1`. -/
theorem claim_C1_witness :
    ∃ out, drop_tokens (tensor3 [[[5], [6], [7]]] 3 1)
      (tensor2 [[true, false]] (3 - 1)) 1 true = Except.ok out ∧
      out.shape = [1, 1 + 1, 1] :=
  claim_C1_amended true (by decide) (by decide) (by decide) (by decide)
    (by decide) (by decide) (by decide)

/-- Witness for C2 amended at a concrete input whose body shape `[1, 1]`
(all dims but the last) differs from the mask shape `[2]`. -/
theorem claim_C2_witness :
    drop_tokens (⟨[1, 2, 1], [4, 5]⟩ : Tensor Nat) ⟨[2], [true, true]⟩
        1 true = Except.error DropErr.assertError ↔
      (bodyOf (⟨[1, 2, 1], [4, 5]⟩ : Tensor Nat) 1).shape.dropLast ≠
        (⟨[2], [true, true]⟩ : Tensor Bool).shape :=
  claim_C2_amended _ _ _ _ (fun _ => by decide)

/-- Witness for C3 at a concrete input: one row, mask `[false, true]`
keeps position 1 of the body. -/
theorem claim_C3_witness :
    ∃ out, drop_tokens (tensor3 [[[5], [6], [7]]] 3 1)
      (tensor2 [[false, true]] (3 - 1)) 1 true = Except.ok out ∧
      ∀ i, i < 1 →
        ((tensorRows out).getD i []).drop 1 =
          maskFilter ([[false, true]].getD i [])
            (([[[5], [6], [7]]].getD i []).drop 1) :=
  claim_C3_row_content (k := 1) true (by decide) (by decide) (by decide)
    (by decide) (by decide) (by decide) (by decide)

/-- Witness for C4 amended at a concrete input with differing per-row
keep counts 2 and 0: the batch size 2 divides the total 2, so the call
silently returns shape `[2, 2, 1]`. -/
theorem claim_C4_witness :
    ∃ out, drop_tokens (tensor3 [[[1], [2], [3]], [[4], [5], [6]]] 3 1)
      (tensor2 [[true, true], [false, false]] (3 - 1)) 1 true =
        Except.ok out ∧
      out.shape = [2, 1 + 1, 1] :=
  (claim_C4_amended true (by decide) (by decide) (by decide) (by decide)
    (by decide) (by decide)).2 (by decide)

/-- Witness for C6 at two concrete leaves: one exposing both
`dtype = "f32"` and `shape = [2, 3]` (with both size capabilities and
`size_p` set, so the size string is appended), one exposing only
`shape = [7]`. -/
theorem claim_C6_witness :
    (h_shape_get true false
        ⟨some "f32", some [2, 3], some 4, some 6, "Tensor"⟩).1 =
      ShapeRes.tuple ([ResItem.dty "f32", ResItem.shp [2, 3]] ++
        sizeSuffix true
          ⟨some "f32", some [2, 3], some 4, some 6, "Tensor"⟩) ∧
    (h_shape_get true false ⟨none, some [7], none, none, "nd"⟩).1 =
      ShapeRes.tuple ([ResItem.typeTag "nd", ResItem.shp [7]] ++
        sizeSuffix true ⟨none, some [7], none, none, "nd"⟩) :=
  ⟨(claim_C6_dispatch true false _ "f32" [2, 3]).1 rfl rfl,
   (claim_C6_dispatch true false _ "x" [7]).2 rfl rfl⟩

/-- Witness for C7 at a concrete capability-free leaf. -/
theorem claim_C7_witness :
    (h_shape_get true true ⟨none, none, none, none, "int"⟩).1 =
      ShapeRes.typeOnly "int" ∧
    (h_shape_get true false ⟨none, none, none, none, "int"⟩).1 =
      ShapeRes.raw ⟨none, none, none, none, "int"⟩ ∧
    torch_shape_get true true
        (PyTree.leaf ⟨none, none, none, none, "int"⟩) =
      (if true then
        ShapeGetResult.sized 0 (PyTree.leaf
          (h_shape_get true true ⟨none, none, none, none, "int"⟩).1)
       else
        ShapeGetResult.plain (PyTree.leaf
          (h_shape_get true true ⟨none, none, none, none, "int"⟩).1)) :=
  claim_C7_fallback true true ⟨none, none, none, none, "int"⟩
    rfl rfl rfl rfl

/-- Witness for C10 at a concrete leaf exposing only `dtype = "i64"`. -/
theorem claim_C10_witness :
    (h_shape_get true true ⟨some "i64", none, none, none, "T"⟩).1 =
      ShapeRes.tuple [ResItem.dty "i64"] :=
  claim_C10_dtype_only true true _ "i64" rfl rfl (Or.inr ⟨rfl, rfl⟩)

/-- Witness for C8 amended at a concrete input: `B = 1`, `L = 2`,
`h = 1`, all-true mask, `num_prefix_tokens = 0`. -/
theorem claim_C8_witness :
    drop_tokens (tensor3 [[[1], [2]]] 2 1)
      (tensor2 (List.replicate 1 (List.replicate 2 true)) 2) 0 true =
      Except.ok (tensor3 [[[1], [2]]] 2 1) :=
  claim_C8_amended true (by decide) (by decide) (by decide)

end PyNight
